import Mathlib

/-!
Shallow embedding of the Gofig hamper-builder selection engine from `main.py`:
the budget-fill function `create_hamper` (candidate generation, three greedy
strategies, refinement loop, final fill) and the replacement-suggestion
function `get_replacement_suggestions`.

Conventions of the embedding:
* pandas rows become the `Row` structure; the pre-normalized numeric columns
  become `ℚ` (prices) and `ℕ` (unit counts); dates become `ℤ` day numbers and
  the wall clock `datetime.today()` becomes an explicit `today` parameter;
* Python float arithmetic is modeled exactly over `ℚ`;
* Python dicts (`temp_used`, `used_items`) become insertion-ordered
  association lists with at most one entry per key, exactly as the code uses
  them (first-match lookup, in-place value overwrite);
* `sorted(...)`/`list.sort(...)` (Timsort, stable) and
  `DataFrame.sort_values` are modeled by the stable `List.insertionSort`.
-/

namespace Gofig

/-- Inventory row after upstream normalization: exactly the columns
`create_hamper` and `get_replacement_suggestions` read. -/
structure Row where
  category : String
  name : String
  mrp : ℚ
  availableUnits : ℕ
  expiryDate : ℤ
  brand : String
  inventoryHolding : String
  productStatus : String
deriving DecidableEq

/-- Embeds `is_within_expiry`; the caller-supplied clock date `today` stands in
for `datetime.today().date()`, and `expiryDate - today` is the day difference. -/
def is_within_expiry (expiryDate today min_days max_days : ℤ) : Bool :=
  decide (min_days ≤ expiryDate - today) && decide (expiryDate - today ≤ max_days)

/-- The `df_filtered` computation at the top of `create_hamper`: keep rows whose
category, inventory holding, product status and brand are selected and whose
expiry date lies in the window. -/
def filterInventory (data : List Row)
    (selected_categories selected_inventory selected_status selected_brands : List String)
    (min_days max_days today : ℤ) : List Row :=
  data.filter fun r =>
    selected_categories.contains r.category &&
    selected_inventory.contains r.inventoryHolding &&
    selected_status.contains r.productStatus &&
    selected_brands.contains r.brand &&
    is_within_expiry r.expiryDate today min_days max_days

/-- One entry of `items_pool`: the dict built per (item, quantity) pair. -/
structure PoolItem where
  category : String
  name : String
  mrp : ℚ
  qty : ℕ
  total_cost : ℚ
  available_units : ℕ
  cost_per_unit : ℚ
deriving DecidableEq

/-- Embeds `df_filtered.drop_duplicates(subset=['Item Name', 'Category'])`:
keep the first row of each (name, category) key. The `seen` accumulator holds
the keys of rows already kept. -/
def dropDupAux : List Row → List (String × String) → List Row
  | [], _ => []
  | r :: rest, seen =>
    if (r.name, r.category) ∈ seen then dropDupAux rest seen
    else r :: dropDupAux rest ((r.name, r.category) :: seen)

/-- The `unique_items` frame of `create_hamper`. -/
def unique_items (rows : List Row) : List Row := dropDupAux rows []

/-- The pool entries generated for one row: one entry per quantity
`1 ≤ qty ≤ min(available_units, 20)`, with `total_cost = mrp * qty`. -/
def rowEntries (r : Row) : List PoolItem :=
  (List.range' 1 (min r.availableUnits 20)).map fun qty =>
    { category := r.category, name := r.name, mrp := r.mrp, qty := qty,
      total_cost := r.mrp * (qty : ℚ), available_units := min r.availableUnits 20,
      cost_per_unit := r.mrp }

/-- The `items_pool` list of `create_hamper`. -/
def items_pool (rows : List Row) : List PoolItem :=
  (unique_items rows).flatMap rowEntries

/-- `items_by_cost`: the pool sorted stably by `total_cost` ascending. -/
def items_by_cost (pool : List PoolItem) : List PoolItem :=
  List.insertionSort (fun a b => a.total_cost ≤ b.total_cost) pool

/-- `items_by_efficiency`: the pool sorted stably by `cost_per_unit` ascending. -/
def items_by_efficiency (pool : List PoolItem) : List PoolItem :=
  List.insertionSort (fun a b => a.cost_per_unit ≤ b.cost_per_unit) pool

/-- The cost-descending ordering (`sorted(..., reverse=True)`, stable on ties). -/
def items_by_cost_desc (pool : List PoolItem) : List PoolItem :=
  List.insertionSort (fun a b => b.total_cost ≤ a.total_cost) pool

/-- A hamper key: the (category, name) pair. -/
abbrev Key := String × String

/-- A hamper line: the (category, name, quantity) triple. -/
abbrev Line := String × String × ℕ

/-- The (category, name) key of a hamper line. -/
def lineKey (l : Line) : Key := (l.1, l.2.1)

/-- The running state shared by all phases of `create_hamper`: the hamper line
list, the tracked total cost, and the `used_items` dict (as an insertion-ordered
association list). -/
structure HState where
  hamper : List Line
  total : ℚ
  used : List (Key × ℕ)
deriving DecidableEq

/-- Dict lookup `used[key]` (first matching entry). -/
def lookupQty (used : List (Key × ℕ)) (k : Key) : Option ℕ :=
  (used.find? fun p => decide (p.1 = k)).map Prod.snd

/-- Dict update `used[key] = qty`: overwrite in place, or append a new entry. -/
def setQty : List (Key × ℕ) → Key → ℕ → List (Key × ℕ)
  | [], k, q => [(k, q)]
  | p :: rest, k, q => if p.1 = k then (k, q) :: rest else p :: setQty rest k q

/-- Quantity of the first hamper line with the given key, if any. -/
def findQty : List Line → Key → Option ℕ
  | [], _ => none
  | l :: rest, k => if lineKey l = k then some l.2.2 else findQty rest k

/-- Remove the first hamper line with the given key (the `pop(i)` in Phase 1). -/
def removeKey : List Line → Key → List Line
  | [], _ => []
  | l :: rest, k => if lineKey l = k then rest else l :: removeKey rest k

/-- Overwrite the quantity of the first hamper line with the given key
(`hamper[i] = (cat, name, new_qty)` in Phases 2 and 3). -/
def replaceFirst : List Line → Key → ℕ → List Line
  | [], _, _ => []
  | l :: rest, k, q => if lineKey l = k then (k.1, k.2, q) :: rest else l :: replaceFirst rest k q

/-- One item step of a Phase 1 greedy strategy pass: skip the entry when its key
is already chosen with at least this quantity; otherwise accept it iff the
current total plus this entry's line cost stays within `budget_limit`, popping
the previously chosen same-key line (and subtracting its cost) on acceptance. -/
def stratStep (budget_limit : ℚ) (s : HState) (item : PoolItem) : HState :=
  let item_key : Key := (item.category, item.name)
  match lookupQty s.used item_key with
  | some prev =>
    if item.qty ≤ prev then s
    else if s.total + item.total_cost ≤ budget_limit then
      { hamper := removeKey s.hamper item_key ++ [(item.category, item.name, item.qty)],
        total :=
          (match findQty s.hamper item_key with
           | some old_qty => s.total - item.mrp * (old_qty : ℚ)
           | none => s.total) + item.total_cost,
        used := setQty s.used item_key item.qty }
    else s
  | none =>
    if s.total + item.total_cost ≤ budget_limit then
      { hamper := s.hamper ++ [(item.category, item.name, item.qty)],
        total := s.total + item.total_cost,
        used := setQty s.used item_key item.qty }
    else s

/-- The empty state every strategy pass starts from. -/
def initState : HState := { hamper := [], total := 0, used := [] }

/-- One whole strategy pass over an ordering of the pool. -/
def runStrategy (budget_limit : ℚ) (sorted_items : List PoolItem) : HState :=
  sorted_items.foldl (stratStep budget_limit) initState

/-- The best-result update after each strategy
(`if temp_total > best_total and temp_total <= budget`). -/
def pickStep (budget : ℚ) (best temp : HState) : HState :=
  if best.total < temp.total ∧ temp.total ≤ budget then temp else best

/-- The three strategy results, in declaration order; the cost-descending
strategy runs with the inflated ceiling `budget * 1.02`. -/
def strategyRuns (pool : List PoolItem) (budget : ℚ) : List HState :=
  [runStrategy budget (items_by_cost pool),
   runStrategy budget (items_by_efficiency pool),
   runStrategy (budget * 1.02) (items_by_cost_desc pool)]

/-- Phase 1 of `create_hamper`: run the three strategies and keep the best
feasible result, starting from the empty hamper with total 0. -/
def phase1 (pool : List PoolItem) (budget : ℚ) : HState :=
  (strategyRuns pool budget).foldl (pickStep budget) initState

/-- First row of `df_filtered` matching a category and item name
(`df_filtered[(...== cat) & (...== name)].iloc[0]`). -/
def findRow (rows : List Row) (cat nm : String) : Option Row :=
  rows.find? fun r => decide (r.category = cat) && decide (r.name = nm)

/-- The inner quantity-increase search of Phase 2: the first
`new_qty` in `current_qty+1 .. max_available` whose incremental cost fits in the
remaining budget. -/
def bumpQty (mrp : ℚ) (current_qty max_available : ℕ) (remaining_budget : ℚ) : Option ℕ :=
  (List.range' (current_qty + 1) (max_available - current_qty)).find? fun new_qty =>
    decide (mrp * ((new_qty : ℚ) - (current_qty : ℚ)) ≤ remaining_budget)

/-- The Phase 2 quantity-bump scan: walk the hamper lines in order and return,
for the first line that admits one, the key, old quantity, new quantity and cost
increase of the accepted bump. Lines whose key has no matching row are skipped
(the `if not item_match.empty` guard). -/
def tryBump (rows : List Row) (remaining_budget : ℚ) : List Line → Option (Key × ℕ × ℕ × ℚ)
  | [] => none
  | (cat, nm, current_qty) :: rest =>
    match findRow rows cat nm with
    | none => tryBump rows remaining_budget rest
    | some row =>
      match bumpQty row.mrp current_qty (min row.availableUnits 20) remaining_budget with
      | some new_qty =>
        some ((cat, nm), current_qty, new_qty,
          row.mrp * ((new_qty : ℚ) - (current_qty : ℚ)))
      | none => tryBump rows remaining_budget rest

/-- The `available_items` list of Phase 2: pool entries whose key is not yet
used and whose line cost fits in the remaining budget. -/
def newItemCandidates (pool : List PoolItem) (used : List (Key × ℕ))
    (remaining_budget : ℚ) : List PoolItem :=
  pool.filter fun item =>
    (lookupQty used (item.category, item.name)).isNone &&
      decide (item.total_cost ≤ remaining_budget)

/-- The Phase 2 new-item attempt: sort `available_items` by cost descending and
take the first entry whose cost fits in the remaining budget. -/
def tryNewItem (pool : List PoolItem) (used : List (Key × ℕ))
    (remaining_budget : ℚ) : Option PoolItem :=
  (items_by_cost_desc (newItemCandidates pool used remaining_budget)).find? fun item =>
    decide (item.total_cost ≤ remaining_budget)

/-- One iteration of the Phase 2 while-loop: a quantity bump if possible, else a
new item, else no improvement (`none`). The remaining budget is computed once
from the total at the start of the iteration, exactly as in the code. -/
def refineIter (rows : List Row) (pool : List PoolItem) (budget : ℚ)
    (s : HState) : Option HState :=
  let remaining_budget := budget - s.total
  match tryBump rows remaining_budget s.hamper with
  | some (k, _, new_qty, cost_increase) =>
    some { hamper := replaceFirst s.hamper k new_qty,
           total := s.total + cost_increase,
           used := setQty s.used k new_qty }
  | none =>
    match tryNewItem pool s.used remaining_budget with
    | some item =>
      some { hamper := s.hamper ++ [(item.category, item.name, item.qty)],
             total := s.total + item.total_cost,
             used := setQty s.used (item.category, item.name) item.qty }
    | none => none

/-- Phase 2 of `create_hamper`: at most `fuel` iterations (100 in the code),
stopping as soon as the total reaches `budget * 0.99` or an iteration brings no
improvement. -/
def refineLoop (rows : List Row) (pool : List PoolItem) (budget : ℚ) :
    ℕ → HState → HState
  | 0, s => s
  | fuel + 1, s =>
    if s.total < budget * 0.99 then
      match refineIter rows pool budget s with
      | some s' => refineLoop rows pool budget fuel s'
      | none => s
    else s

/-- The `small_items` list of Phase 3: pool entries with line cost at most the
(static) final budget that are either for an unused key, or for a used key whose
quantity would strictly increase at an incremental cost within the final budget. -/
def small_items (pool : List PoolItem) (used : List (Key × ℕ))
    (final_budget : ℚ) : List PoolItem :=
  pool.filter fun item =>
    decide (item.total_cost ≤ final_budget) &&
      (match lookupQty used (item.category, item.name) with
       | none => true
       | some prev =>
         decide (prev < item.qty) &&
           decide (item.mrp * ((item.qty : ℚ) - (prev : ℚ)) ≤ final_budget))

/-- One step of the Phase 3 sweep: add a line for a new key, or overwrite the
quantity of a used key, whenever the running total stays within the budget. -/
def finalStep (budget : ℚ) (s : HState) (item : PoolItem) : HState :=
  let item_key : Key := (item.category, item.name)
  match lookupQty s.used item_key with
  | none =>
    if s.total + item.total_cost ≤ budget then
      { hamper := s.hamper ++ [(item.category, item.name, item.qty)],
        total := s.total + item.total_cost,
        used := setQty s.used item_key item.qty }
    else s
  | some current_qty =>
    if current_qty < item.qty then
      if s.total + item.mrp * ((item.qty : ℚ) - (current_qty : ℚ)) ≤ budget then
        match findQty s.hamper item_key with
        | some _ =>
          { hamper := replaceFirst s.hamper item_key item.qty,
            total := s.total + item.mrp * ((item.qty : ℚ) - (current_qty : ℚ)),
            used := setQty s.used item_key item.qty }
        | none => s
      else s
    else s

/-- Phase 3 of `create_hamper`: when budget remains, one greedy sweep over
`small_items` sorted by cost descending. -/
def phase3 (pool : List PoolItem) (budget : ℚ) (s : HState) : HState :=
  let final_budget := budget - s.total
  if 0 < final_budget then
    (items_by_cost_desc (small_items pool s.used final_budget)).foldl (finalStep budget) s
  else s

/-- The full `create_hamper` function: filter the inventory, return the empty
hamper when nothing remains, otherwise run candidate generation, the three
strategies, the refinement loop (100 iterations max) and the final fill. -/
def create_hamper (data : List Row) (budget : ℚ)
    (selected_categories selected_inventory selected_status selected_brands : List String)
    (min_days max_days today : ℤ) : List Line × ℚ :=
  let df_filtered := filterInventory data selected_categories selected_inventory
    selected_status selected_brands min_days max_days today
  if df_filtered.isEmpty then ([], 0)
  else
    let pool := items_pool df_filtered
    let s3 := phase3 pool budget (refineLoop df_filtered pool budget 100 (phase1 pool budget))
    (s3.hamper, s3.total)

/-- One suggestion record returned by `get_replacement_suggestions`. -/
structure Suggestion where
  name : String
  mrp : ℚ
  available : ℕ
  expiry : ℤ
  brand : String
deriving DecidableEq

/-- Embeds `get_replacement_suggestions`: filter the inventory to the same
category excluding the named item under the active filters and expiry window,
sort by price ascending (`sort_values('MRP')`, modeled by a sort), and report
the first 7 rows. -/
def get_replacement_suggestions (data : List Row) (category current_item : String)
    (selected_inventory selected_status selected_brands : List String)
    (min_days max_days today : ℤ) : List Suggestion :=
  let df_filtered := data.filter fun r =>
    decide (r.category = category) && decide (r.name ≠ current_item) &&
    selected_inventory.contains r.inventoryHolding &&
    selected_status.contains r.productStatus &&
    selected_brands.contains r.brand &&
    is_within_expiry r.expiryDate today min_days max_days
  ((List.insertionSort (fun a b : Row => a.mrp ≤ b.mrp) df_filtered).take 7).map fun r =>
    { name := r.name, mrp := r.mrp, available := r.availableUnits,
      expiry := r.expiryDate, brand := r.brand }

/-! ### Keys of the used-items dict and of the hamper -/

/-- Keys of the `used_items` dict, in insertion order. -/
def usedKeys (used : List (Key × ℕ)) : List Key := used.map Prod.fst

/-- Keys of the hamper lines, in display order. -/
def keysOf (h : List Line) : List Key := h.map lineKey

theorem lookupQty_cons (p : Key × ℕ) (rest : List (Key × ℕ)) (k : Key) :
    lookupQty (p :: rest) k = if p.1 = k then some p.2 else lookupQty rest k := by
  by_cases h : p.1 = k <;> simp [lookupQty, List.find?_cons, h]

theorem lookupQty_eq_none_iff (used : List (Key × ℕ)) (k : Key) :
    lookupQty used k = none ↔ k ∉ usedKeys used := by
  induction used with
  | nil => simp [lookupQty, usedKeys]
  | cons p rest ih =>
    by_cases h : p.1 = k
    · simp [lookupQty_cons, h, usedKeys]
    · simp only [lookupQty_cons, if_neg h, usedKeys, List.map_cons, List.mem_cons]
      rw [ih]
      unfold usedKeys
      constructor
      · intro hk hor
        rcases hor with hor | hor
        · exact h hor.symm
        · exact hk hor
      · intro hk hmem
        exact hk (Or.inr hmem)

theorem lookupQty_setQty_self (used : List (Key × ℕ)) (k : Key) (q : ℕ) :
    lookupQty (setQty used k q) k = some q := by
  induction used with
  | nil => simp [setQty, lookupQty_cons]
  | cons p rest ih =>
    by_cases h : p.1 = k
    · simp [setQty, h, lookupQty_cons]
    · simp [setQty, h, lookupQty_cons, ih]

theorem lookupQty_setQty_ne (used : List (Key × ℕ)) (k k' : Key) (q : ℕ)
    (hne : k' ≠ k) : lookupQty (setQty used k q) k' = lookupQty used k' := by
  have hkk : ¬ (k = k') := fun hh => hne hh.symm
  induction used with
  | nil => simp [setQty, lookupQty_cons, lookupQty, hkk]
  | cons p rest ih =>
    by_cases h : p.1 = k
    · have hpk : ¬ (p.1 = k') := by rw [h]; exact hkk
      simp [setQty, h, lookupQty_cons, hkk, hpk]
    · simp [setQty, h, lookupQty_cons, ih]

theorem mem_usedKeys_setQty (used : List (Key × ℕ)) (k k' : Key) (q : ℕ) :
    k' ∈ usedKeys (setQty used k q) ↔ k' = k ∨ k' ∈ usedKeys used := by
  induction used with
  | nil => simp [setQty, usedKeys]
  | cons p rest ih =>
    by_cases h : p.1 = k
    · subst h
      simp [setQty, usedKeys]
    · simp only [setQty, if_neg h, usedKeys, List.map_cons, List.mem_cons] at *
      rw [ih]
      tauto

/-! ### Hamper-line list lemmas -/

theorem findQty_eq_none_iff (h : List Line) (k : Key) :
    findQty h k = none ↔ k ∉ keysOf h := by
  induction h with
  | nil => simp [findQty, keysOf]
  | cons l rest ih =>
    by_cases hl : lineKey l = k
    · simp [findQty, hl, keysOf]
    · simp only [findQty, if_neg hl, keysOf, List.map_cons, List.mem_cons]
      rw [ih]
      unfold keysOf
      constructor
      · intro hk hor
        rcases hor with hor | hor
        · exact hl hor.symm
        · exact hk hor
      · intro hk hmem
        exact hk (Or.inr hmem)

theorem keysOf_append (h₁ h₂ : List Line) :
    keysOf (h₁ ++ h₂) = keysOf h₁ ++ keysOf h₂ := by
  simp [keysOf]

theorem lineKey_mk (k : Key) (q : ℕ) : lineKey (k.1, k.2, q) = k := by
  simp [lineKey]

theorem keysOf_replaceFirst (h : List Line) (k : Key) (q : ℕ) :
    keysOf (replaceFirst h k q) = keysOf h := by
  induction h with
  | nil => rfl
  | cons l rest ih =>
    by_cases hl : lineKey l = k
    · simp [replaceFirst, hl, keysOf, lineKey_mk]
    · simp only [replaceFirst, if_neg hl, keysOf, List.map_cons] at *
      rw [ih]

theorem mem_replaceFirst (h : List Line) (k : Key) (q : ℕ) :
    ∀ l ∈ replaceFirst h k q, l ∈ h ∨ l = (k.1, k.2, q) := by
  induction h with
  | nil => simp [replaceFirst]
  | cons l₀ rest ih =>
    intro l hl
    by_cases h₀ : lineKey l₀ = k
    · simp only [replaceFirst, if_pos h₀, List.mem_cons] at hl
      rcases hl with hl | hl
      · exact Or.inr hl
      · exact Or.inl (List.mem_cons_of_mem _ hl)
    · simp only [replaceFirst, if_neg h₀, List.mem_cons] at hl
      rcases hl with hl | hl
      · exact Or.inl (hl ▸ List.mem_cons_self _ _)
      · rcases ih l hl with hh | hh
        · exact Or.inl (List.mem_cons_of_mem _ hh)
        · exact Or.inr hh

theorem replaceFirst_ne_nil (h : List Line) (k : Key) (q : ℕ) (hne : h ≠ []) :
    replaceFirst h k q ≠ [] := by
  cases h with
  | nil => exact absurd rfl hne
  | cons l rest =>
    by_cases hl : lineKey l = k <;> simp [replaceFirst, hl]

theorem mem_removeKey (h : List Line) (k : Key) : ∀ l ∈ removeKey h k, l ∈ h := by
  induction h with
  | nil => simp [removeKey]
  | cons l₀ rest ih =>
    intro l hl
    by_cases h₀ : lineKey l₀ = k
    · simp only [removeKey, if_pos h₀] at hl
      exact List.mem_cons_of_mem _ hl
    · simp only [removeKey, if_neg h₀, List.mem_cons] at hl
      rcases hl with hl | hl
      · exact hl ▸ List.mem_cons_self _ _
      · exact List.mem_cons_of_mem _ (ih l hl)

theorem mem_keysOf_removeKey (h : List Line) (k k' : Key)
    (hm : k' ∈ keysOf (removeKey h k)) : k' ∈ keysOf h := by
  obtain ⟨l, hl, hlk⟩ := List.mem_map.mp hm
  exact List.mem_map.mpr ⟨l, mem_removeKey h k l hl, hlk⟩

theorem mem_keysOf_removeKey_of_ne (h : List Line) (k k' : Key)
    (hm : k' ∈ keysOf h) (hne : k' ≠ k) : k' ∈ keysOf (removeKey h k) := by
  induction h with
  | nil => simp [keysOf] at hm
  | cons l₀ rest ih =>
    by_cases h₀ : lineKey l₀ = k
    · simp only [removeKey, if_pos h₀]
      simp only [keysOf, List.map_cons, List.mem_cons] at hm
      rcases hm with hm | hm
      · exact absurd (hm.trans h₀) hne
      · exact hm
    · simp only [removeKey, if_neg h₀, keysOf, List.map_cons, List.mem_cons] at *
      rcases hm with hm | hm
      · exact Or.inl hm
      · exact Or.inr (ih hm)

theorem nodup_keysOf_removeKey (h : List Line) (k : Key)
    (hn : (keysOf h).Nodup) : (keysOf (removeKey h k)).Nodup := by
  induction h with
  | nil => simp [removeKey, keysOf]
  | cons l₀ rest ih =>
    simp only [keysOf, List.map_cons, List.nodup_cons] at hn
    by_cases h₀ : lineKey l₀ = k
    · simpa only [removeKey, if_pos h₀] using hn.2
    · simp only [removeKey, if_neg h₀, keysOf, List.map_cons, List.nodup_cons]
      exact ⟨fun hm => hn.1 (mem_keysOf_removeKey rest k _ hm), ih hn.2⟩

theorem not_mem_keysOf_removeKey (h : List Line) (k : Key)
    (hn : (keysOf h).Nodup) : k ∉ keysOf (removeKey h k) := by
  induction h with
  | nil => simp [removeKey, keysOf]
  | cons l₀ rest ih =>
    simp only [keysOf, List.map_cons, List.nodup_cons] at hn
    by_cases h₀ : lineKey l₀ = k
    · simpa only [removeKey, if_pos h₀] using h₀ ▸ hn.1
    · simp only [removeKey, if_neg h₀, keysOf, List.map_cons, List.mem_cons]
      intro hor
      rcases hor with hor | hor
      · exact h₀ hor.symm
      · exact ih hn.2 hor

theorem removeKey_of_not_mem (h : List Line) (k : Key)
    (hk : k ∉ keysOf h) : removeKey h k = h := by
  induction h with
  | nil => rfl
  | cons l₀ rest ih =>
    simp only [keysOf, List.map_cons, List.mem_cons] at hk
    push_neg at hk
    have h₀ : ¬ (lineKey l₀ = k) := fun hh => hk.1 hh.symm
    simp only [removeKey, if_neg h₀]
    rw [ih (by simpa [keysOf] using hk.2)]

/-! ### Candidate-pool lemmas -/

/-- What membership in `items_pool rows` guarantees about an entry: its key
resolves (by first match) to a row of the view, its quantity lies in
`[1, min(available_units, 20)]` of that row, and its cost fields are derived
from that row's price. -/
def PoolOK (rows : List Row) (e : PoolItem) : Prop :=
  ∃ r, findRow rows e.category e.name = some r ∧
    1 ≤ e.qty ∧ e.qty ≤ min r.availableUnits 20 ∧
    e.mrp = r.mrp ∧ e.total_cost = r.mrp * (e.qty : ℚ) ∧
    e.available_units = min r.availableUnits 20

theorem findRow_cons (r : Row) (rest : List Row) (cat nm : String) :
    findRow (r :: rest) cat nm =
      if r.category = cat ∧ r.name = nm then some r else findRow rest cat nm := by
  by_cases h : r.category = cat ∧ r.name = nm
  · simp [findRow, List.find?_cons, h.1, h.2]
  · rw [if_neg h]
    rcases not_and_or.mp h with h' | h' <;> simp [findRow, List.find?_cons, h']

theorem dropDupAux_spec (l : List Row) :
    ∀ (seen : List (String × String)), ∀ r' ∈ dropDupAux l seen,
      (r'.name, r'.category) ∉ seen ∧ findRow l r'.category r'.name = some r' := by
  induction l with
  | nil => simp [dropDupAux]
  | cons r rest ih =>
    intro seen r' hr'
    by_cases hseen : (r.name, r.category) ∈ seen
    · simp only [dropDupAux, if_pos hseen] at hr'
      obtain ⟨hnot, hfind⟩ := ih seen r' hr'
      refine ⟨hnot, ?_⟩
      rw [findRow_cons, if_neg, hfind]
      intro ⟨hc, hn⟩
      exact hnot (by rw [← hn, ← hc]; exact hseen)
    · simp only [dropDupAux, if_neg hseen, List.mem_cons] at hr'
      rcases hr' with hr' | hr'
      · subst hr'
        exact ⟨hseen, by rw [findRow_cons, if_pos ⟨rfl, rfl⟩]⟩
      · obtain ⟨hnot, hfind⟩ := ih _ r' hr'
        simp only [List.mem_cons] at hnot
        push_neg at hnot
        refine ⟨hnot.2, ?_⟩
        rw [findRow_cons, if_neg, hfind]
        intro ⟨hc, hn⟩
        exact hnot.1 (by rw [← hn, ← hc])

theorem unique_items_findRow (rows : List Row) (r' : Row)
    (h : r' ∈ unique_items rows) : findRow rows r'.category r'.name = some r' :=
  (dropDupAux_spec rows [] r' h).2

theorem mem_items_pool (rows : List Row) (e : PoolItem)
    (he : e ∈ items_pool rows) : PoolOK rows e := by
  obtain ⟨r, hr, he⟩ := List.mem_flatMap.mp he
  obtain ⟨qty, hq, rfl⟩ := List.mem_map.mp he
  obtain ⟨hq1, hq2⟩ := List.mem_range'_1.mp hq
  refine ⟨r, unique_items_findRow rows r hr, hq1, ?_, rfl, rfl, rfl⟩
  dsimp only
  omega

theorem mem_items_by_cost (pool : List PoolItem) (e : PoolItem) :
    e ∈ items_by_cost pool ↔ e ∈ pool :=
  List.mem_insertionSort _

theorem mem_items_by_efficiency (pool : List PoolItem) (e : PoolItem) :
    e ∈ items_by_efficiency pool ↔ e ∈ pool :=
  List.mem_insertionSort _

theorem mem_items_by_cost_desc (pool : List PoolItem) (e : PoolItem) :
    e ∈ items_by_cost_desc pool ↔ e ∈ pool :=
  List.mem_insertionSort _

/-! ### The cross-phase state invariant -/

/-- A well-formed hamper line: its key resolves (first match) to a row of the
view and its quantity lies in that row's `[1, min(available_units, 20)]` range. -/
def LineOK (rows : List Row) (l : Line) : Prop :=
  ∃ r, findRow rows l.1 l.2.1 = some r ∧ 1 ≤ l.2.2 ∧ l.2.2 ≤ min r.availableUnits 20

/-- The invariant every phase of `create_hamper` preserves: hamper keys are
pairwise distinct, the `used_items` dict holds exactly the hamper's keys, and
every line is well-formed for the filtered view. -/
def Inv (rows : List Row) (s : HState) : Prop :=
  (keysOf s.hamper).Nodup ∧
  (∀ k, k ∈ usedKeys s.used ↔ k ∈ keysOf s.hamper) ∧
  ∀ l ∈ s.hamper, LineOK rows l

theorem initState_inv (rows : List Row) : Inv rows initState :=
  ⟨List.nodup_nil, fun k => by simp [initState, usedKeys, keysOf], by simp [initState]⟩

theorem lookupQty_some_mem (used : List (Key × ℕ)) (k : Key) (q : ℕ)
    (h : lookupQty used k = some q) : k ∈ usedKeys used := by
  by_contra hc
  rw [(lookupQty_eq_none_iff used k).mpr hc] at h
  cases h

theorem stratStep_inv (rows : List Row) (limit : ℚ) (s : HState) (e : PoolItem)
    (hs : Inv rows s) (he : PoolOK rows e) : Inv rows (stratStep limit s e) := by
  obtain ⟨hnd, hum, hok⟩ := hs
  obtain ⟨r, hr, hq1, hq2, _, _, _⟩ := he
  cases hlu : lookupQty s.used (e.category, e.name) with
  | some prev =>
    by_cases hskip : e.qty ≤ prev
    · simpa only [stratStep, hlu, if_pos hskip] using ⟨hnd, hum, hok⟩
    · by_cases hfit : s.total + e.total_cost ≤ limit
      · simp only [stratStep, hlu, if_neg hskip, if_pos hfit]
        refine ⟨?_, ?_, ?_⟩
        · rw [keysOf_append, List.nodup_append]
          refine ⟨nodup_keysOf_removeKey _ _ hnd, by simp [keysOf, lineKey], ?_⟩
          intro x hx
          simp only [keysOf, List.map_cons, List.map_nil, List.mem_singleton, lineKey]
          intro hxk
          exact not_mem_keysOf_removeKey s.hamper _ hnd (hxk ▸ hx)
        · intro k'
          rw [mem_usedKeys_setQty, keysOf_append]
          simp only [List.mem_append, keysOf, List.map_cons, List.map_nil,
            List.mem_singleton, lineKey]
          constructor
          · intro hor
            rcases hor with hor | hor
            · exact Or.inr hor
            · by_cases hkk : k' = (e.category, e.name)
              · exact Or.inr hkk
              · exact Or.inl (mem_keysOf_removeKey_of_ne _ _ _ ((hum k').mp hor) hkk)
          · intro hor
            rcases hor with hor | hor
            · exact Or.inr ((hum k').mpr (mem_keysOf_removeKey _ _ _ hor))
            · exact Or.inl hor
        · intro l hl
          rcases List.mem_append.mp hl with hl | hl
          · exact hok l (mem_removeKey _ _ l hl)
          · rcases List.mem_singleton.mp hl with rfl
            exact ⟨r, hr, hq1, hq2⟩
      · simpa only [stratStep, hlu, if_neg hskip, if_neg hfit] using ⟨hnd, hum, hok⟩
  | none =>
    have hkus : (e.category, e.name) ∉ usedKeys s.used :=
      (lookupQty_eq_none_iff s.used _).mp hlu
    have hkh : (e.category, e.name) ∉ keysOf s.hamper := fun hc => hkus ((hum _).mpr hc)
    by_cases hfit : s.total + e.total_cost ≤ limit
    · simp only [stratStep, hlu, if_pos hfit]
      refine ⟨?_, ?_, ?_⟩
      · rw [keysOf_append, List.nodup_append]
        refine ⟨hnd, by simp [keysOf, lineKey], ?_⟩
        intro x hx
        simp only [keysOf, List.map_cons, List.map_nil, List.mem_singleton, lineKey]
        intro hxk
        exact hkh (hxk ▸ hx)
      · intro k'
        rw [mem_usedKeys_setQty, keysOf_append]
        simp only [List.mem_append, keysOf, List.map_cons, List.map_nil,
          List.mem_singleton, lineKey]
        rw [hum k']
        unfold keysOf
        tauto
      · intro l hl
        rcases List.mem_append.mp hl with hl | hl
        · exact hok l hl
        · rcases List.mem_singleton.mp hl with rfl
          exact ⟨r, hr, hq1, hq2⟩
    · simpa only [stratStep, hlu, if_neg hfit] using ⟨hnd, hum, hok⟩

/-- Fold preservation: an invariant preserved by each step over acceptable
elements is preserved by the whole fold. -/
theorem foldl_pres {σ α : Type} (f : σ → α → σ) (I : σ → Prop) (P : α → Prop)
    (hf : ∀ s a, I s → P a → I (f s a)) :
    ∀ (l : List α) (s : σ), I s → (∀ a ∈ l, P a) → I (l.foldl f s)
  | [], _, hs, _ => hs
  | a :: l, s, hs, hl =>
    foldl_pres f I P hf l (f s a) (hf s a hs (hl a (List.mem_cons_self a l)))
      (fun b hb => hl b (List.mem_cons_of_mem a hb))

theorem runStrategy_inv (rows : List Row) (limit : ℚ) (items : List PoolItem)
    (hitems : ∀ e ∈ items, PoolOK rows e) : Inv rows (runStrategy limit items) :=
  foldl_pres _ (Inv rows) (PoolOK rows)
    (fun s e hs he => stratStep_inv rows limit s e hs he)
    items initState (initState_inv rows) hitems

/-- A state whose tracked total is nonzero has a non-empty hamper. -/
def NEState (s : HState) : Prop := s.total ≠ 0 → s.hamper ≠ []

theorem stratStep_ne (limit : ℚ) (s : HState) (e : PoolItem)
    (hs : NEState s) : NEState (stratStep limit s e) := by
  cases hlu : lookupQty s.used (e.category, e.name) with
  | some prev =>
    by_cases hskip : e.qty ≤ prev
    · simpa only [stratStep, hlu, if_pos hskip] using hs
    · by_cases hfit : s.total + e.total_cost ≤ limit
      · simp only [stratStep, hlu, if_neg hskip, if_pos hfit, NEState]
        intro _
        simp
      · simpa only [stratStep, hlu, if_neg hskip, if_neg hfit] using hs
  | none =>
    by_cases hfit : s.total + e.total_cost ≤ limit
    · simp only [stratStep, hlu, if_pos hfit, NEState]
      intro _
      simp
    · simpa only [stratStep, hlu, if_neg hfit] using hs

theorem runStrategy_ne (limit : ℚ) (items : List PoolItem) :
    NEState (runStrategy limit items) :=
  foldl_pres _ NEState (fun _ => True)
    (fun s e hs _ => stratStep_ne limit s e hs)
    items initState (fun h => absurd rfl h) (fun _ _ => trivial)

/-! ### Phase 1 selection lemmas -/

theorem foldl_pickStep_mem (b : ℚ) :
    ∀ (rs : List HState) (s0 : HState),
      rs.foldl (pickStep b) s0 = s0 ∨ rs.foldl (pickStep b) s0 ∈ rs := by
  intro rs
  induction rs with
  | nil => exact fun s0 => Or.inl rfl
  | cons r rs ih =>
    intro s0
    by_cases hc : s0.total < r.total ∧ r.total ≤ b
    · simp only [List.foldl_cons, pickStep, if_pos hc]
      rcases ih r with h | h
      · exact Or.inr (by rw [h]; exact List.mem_cons_self r rs)
      · exact Or.inr (List.mem_cons_of_mem r h)
    · simp only [List.foldl_cons, pickStep, if_neg hc]
      rcases ih s0 with h | h
      · exact Or.inl h
      · exact Or.inr (List.mem_cons_of_mem r h)

theorem foldl_pickStep_le (b : ℚ) :
    ∀ (rs : List HState) (s0 : HState), s0.total ≤ b →
      (rs.foldl (pickStep b) s0).total ≤ b := by
  intro rs
  induction rs with
  | nil => exact fun s0 h => h
  | cons r rs ih =>
    intro s0 h0
    by_cases hc : s0.total < r.total ∧ r.total ≤ b
    · simp only [List.foldl_cons, pickStep, if_pos hc]
      exact ih r hc.2
    · simp only [List.foldl_cons, pickStep, if_neg hc]
      exact ih s0 h0

theorem foldl_pickStep_pos (b : ℚ) :
    ∀ (rs : List HState) (s0 : HState), 0 ≤ s0.total →
      rs.foldl (pickStep b) s0 = s0 ∨
        (rs.foldl (pickStep b) s0 ∈ rs ∧ 0 < (rs.foldl (pickStep b) s0).total) := by
  intro rs
  induction rs with
  | nil => exact fun s0 _ => Or.inl rfl
  | cons r rs ih =>
    intro s0 h0
    by_cases hc : s0.total < r.total ∧ r.total ≤ b
    · simp only [List.foldl_cons, pickStep, if_pos hc]
      have hrpos : 0 < r.total := lt_of_le_of_lt h0 hc.1
      rcases ih r (le_of_lt hrpos) with h | h
      · exact Or.inr ⟨by rw [h]; exact List.mem_cons_self r rs, by rw [h]; exact hrpos⟩
      · exact Or.inr ⟨List.mem_cons_of_mem r h.1, h.2⟩
    · simp only [List.foldl_cons, pickStep, if_neg hc]
      rcases ih s0 h0 with h | h
      · exact Or.inl h
      · exact Or.inr ⟨List.mem_cons_of_mem r h.1, h.2⟩

theorem strategyRuns_inv (rows : List Row) (pool : List PoolItem) (budget : ℚ)
    (hpool : ∀ e ∈ pool, PoolOK rows e) :
    ∀ t ∈ strategyRuns pool budget, Inv rows t := by
  intro t ht
  rcases List.mem_cons.mp ht with rfl | ht
  · exact runStrategy_inv rows budget _
      (fun e hme => hpool e ((mem_items_by_cost pool e).mp hme))
  rcases List.mem_cons.mp ht with rfl | ht
  · exact runStrategy_inv rows budget _
      (fun e hme => hpool e ((mem_items_by_efficiency pool e).mp hme))
  rcases List.mem_cons.mp ht with rfl | ht
  · exact runStrategy_inv rows (budget * 1.02) _
      (fun e hme => hpool e ((mem_items_by_cost_desc pool e).mp hme))
  · cases ht

theorem phase1_inv (rows : List Row) (pool : List PoolItem) (budget : ℚ)
    (hpool : ∀ e ∈ pool, PoolOK rows e) : Inv rows (phase1 pool budget) := by
  rcases foldl_pickStep_mem budget (strategyRuns pool budget) initState with h | h
  · rw [phase1, h]
    exact initState_inv rows
  · exact strategyRuns_inv rows pool budget hpool _ h

theorem phase1_total_le (pool : List PoolItem) (budget : ℚ) (hb : 0 ≤ budget) :
    (phase1 pool budget).total ≤ budget :=
  foldl_pickStep_le budget _ initState (by simpa [initState] using hb)

theorem phase1_pos (pool : List PoolItem) (budget : ℚ) :
    phase1 pool budget = initState ∨
      (phase1 pool budget ∈ strategyRuns pool budget ∧ 0 < (phase1 pool budget).total) :=
  foldl_pickStep_pos budget _ initState (by simp [initState])

/-! ### Phase 2 (refinement loop) lemmas -/

theorem bumpQty_spec (mrp : ℚ) (cur cap : ℕ) (rem : ℚ) (nq : ℕ)
    (h : bumpQty mrp cur cap rem = some nq) :
    cur + 1 ≤ nq ∧ nq ≤ cap ∧ mrp * ((nq : ℚ) - (cur : ℚ)) ≤ rem := by
  have hm := List.mem_of_find?_eq_some h
  have hp := List.find?_some h
  obtain ⟨h1, h2⟩ := List.mem_range'_1.mp hm
  exact ⟨h1, by omega, by simpa using hp⟩

theorem tryBump_spec (rows : List Row) (rem : ℚ) :
    ∀ (h : List Line) (k : Key) (cur nq : ℕ) (inc : ℚ),
      tryBump rows rem h = some (k, cur, nq, inc) →
      (k.1, k.2, cur) ∈ h ∧
        ∃ r, findRow rows k.1 k.2 = some r ∧
          cur + 1 ≤ nq ∧ nq ≤ min r.availableUnits 20 ∧
          inc = r.mrp * ((nq : ℚ) - (cur : ℚ)) ∧ inc ≤ rem := by
  intro h
  induction h with
  | nil => intro k cur nq inc hh; cases hh
  | cons l rest ih =>
    intro k cur nq inc hh
    obtain ⟨cat, nm, q⟩ := l
    cases hfr : findRow rows cat nm with
    | none =>
      simp only [tryBump, hfr] at hh
      obtain ⟨hmem, spec⟩ := ih k cur nq inc hh
      exact ⟨List.mem_cons_of_mem _ hmem, spec⟩
    | some row =>
      cases hbq : bumpQty row.mrp q (min row.availableUnits 20) rem with
      | none =>
        simp only [tryBump, hfr, hbq] at hh
        obtain ⟨hmem, spec⟩ := ih k cur nq inc hh
        exact ⟨List.mem_cons_of_mem _ hmem, spec⟩
      | some nq' =>
        simp only [tryBump, hfr, hbq, Option.some.injEq, Prod.mk.injEq] at hh
        obtain ⟨hk, hcur, hnq, hinc⟩ := hh
        obtain ⟨h1, h2, h3⟩ := bumpQty_spec row.mrp q (min row.availableUnits 20) rem nq' hbq
        subst hk hcur hnq hinc
        exact ⟨List.mem_cons_self _ _, row, hfr, h1, h2, rfl, h3⟩

theorem tryNewItem_spec (pool : List PoolItem) (used : List (Key × ℕ)) (rem : ℚ)
    (e : PoolItem) (h : tryNewItem pool used rem = some e) :
    e ∈ pool ∧ lookupQty used (e.category, e.name) = none ∧ e.total_cost ≤ rem := by
  have hm := List.mem_of_find?_eq_some h
  rw [mem_items_by_cost_desc] at hm
  have hf := List.mem_filter.mp hm
  have hconds := hf.2
  simp only [Bool.and_eq_true, Option.isNone_iff_eq_none, decide_eq_true_eq] at hconds
  exact ⟨hf.1, hconds.1, hconds.2⟩

theorem findQty_some_mem (h : List Line) (k : Key) (q : ℕ)
    (hf : findQty h k = some q) : k ∈ keysOf h := by
  by_contra hc
  rw [(findQty_eq_none_iff h k).mpr hc] at hf
  cases hf

/-- Preservation of the invariant when a line for a fresh key is appended and
the dict entry for that key is written. -/
theorem inv_accept_new (rows : List Row) (s : HState) (c n : String) (q : ℕ) (t : ℚ)
    (hs : Inv rows s) (hlk : (c, n) ∉ usedKeys s.used)
    (hok : LineOK rows (c, n, q)) :
    Inv rows { hamper := s.hamper ++ [(c, n, q)], total := t,
               used := setQty s.used (c, n) q } := by
  obtain ⟨hnd, hum, hlines⟩ := hs
  have hkh : (c, n) ∉ keysOf s.hamper := fun hc => hlk ((hum _).mpr hc)
  refine ⟨?_, ?_, ?_⟩
  · rw [keysOf_append, List.nodup_append]
    refine ⟨hnd, by simp [keysOf, lineKey], ?_⟩
    intro x hx
    simp only [keysOf, List.map_cons, List.map_nil, List.mem_singleton, lineKey]
    intro hxk
    exact hkh (hxk ▸ hx)
  · intro k'
    rw [mem_usedKeys_setQty, keysOf_append]
    simp only [List.mem_append, keysOf, List.map_cons, List.map_nil,
      List.mem_singleton, lineKey]
    rw [hum k']
    unfold keysOf
    tauto
  · intro l hl
    rcases List.mem_append.mp hl with hl | hl
    · exact hlines l hl
    · rcases List.mem_singleton.mp hl with rfl
      exact hok

/-- Preservation of the invariant when the quantity of an existing key's line
is overwritten and the dict entry for that key is rewritten. -/
theorem inv_replace (rows : List Row) (s : HState) (k : Key) (q : ℕ) (t : ℚ)
    (hs : Inv rows s) (hk : k ∈ keysOf s.hamper)
    (hok : LineOK rows (k.1, k.2, q)) :
    Inv rows { hamper := replaceFirst s.hamper k q, total := t,
               used := setQty s.used k q } := by
  obtain ⟨hnd, hum, hlines⟩ := hs
  refine ⟨?_, ?_, ?_⟩
  · rw [keysOf_replaceFirst]
    exact hnd
  · intro k'
    rw [mem_usedKeys_setQty, keysOf_replaceFirst, hum k']
    constructor
    · intro hor
      rcases hor with hor | hor
      · exact hor ▸ hk
      · exact hor
    · exact Or.inr
  · intro l hl
    rcases mem_replaceFirst s.hamper k q l hl with hl | hl
    · exact hlines l hl
    · exact hl ▸ hok

theorem refineIter_inv (rows : List Row) (pool : List PoolItem) (budget : ℚ)
    (s s' : HState) (hs : Inv rows s) (hpool : ∀ e ∈ pool, PoolOK rows e)
    (h : refineIter rows pool budget s = some s') : Inv rows s' := by
  simp only [refineIter] at h
  cases htb : tryBump rows (budget - s.total) s.hamper with
  | some res =>
    obtain ⟨k, cur, nq, inc⟩ := res
    rw [htb] at h
    simp only [Option.some.injEq] at h
    subst h
    obtain ⟨hmem, r, hfr, h1, h2, _, _⟩ := tryBump_spec rows (budget - s.total) s.hamper k cur nq inc htb
    have hkh : k ∈ keysOf s.hamper :=
      List.mem_map.mpr ⟨(k.1, k.2, cur), hmem, lineKey_mk k cur⟩
    refine inv_replace rows s k nq _ hs hkh ⟨r, hfr, ?_, ?_⟩
    · show 1 ≤ nq
      omega
    · show nq ≤ min r.availableUnits 20
      exact h2
  | none =>
    rw [htb] at h
    cases htn : tryNewItem pool s.used (budget - s.total) with
    | none => rw [htn] at h; cases h
    | some e2 =>
      rw [htn] at h
      simp only [Option.some.injEq] at h
      subst h
      obtain ⟨hp, hlk, _⟩ := tryNewItem_spec pool s.used (budget - s.total) e2 htn
      obtain ⟨r, hfr, hq1, hq2, _, _, _⟩ := hpool e2 hp
      exact inv_accept_new rows s e2.category e2.name e2.qty _ hs
        ((lookupQty_eq_none_iff _ _).mp hlk) ⟨r, hfr, hq1, hq2⟩

theorem refineIter_total_le (rows : List Row) (pool : List PoolItem) (budget : ℚ)
    (s s' : HState) (hle : s.total ≤ budget)
    (h : refineIter rows pool budget s = some s') : s'.total ≤ budget := by
  simp only [refineIter] at h
  cases htb : tryBump rows (budget - s.total) s.hamper with
  | some res =>
    obtain ⟨k, cur, nq, inc⟩ := res
    rw [htb] at h
    simp only [Option.some.injEq] at h
    subst h
    obtain ⟨_, r, _, _, _, _, hincle⟩ := tryBump_spec rows (budget - s.total) s.hamper k cur nq inc htb
    dsimp only
    linarith
  | none =>
    rw [htb] at h
    cases htn : tryNewItem pool s.used (budget - s.total) with
    | none => rw [htn] at h; cases h
    | some e2 =>
      rw [htn] at h
      simp only [Option.some.injEq] at h
      subst h
      obtain ⟨_, _, hcost⟩ := tryNewItem_spec pool s.used (budget - s.total) e2 htn
      dsimp only
      linarith

theorem refineIter_ne (rows : List Row) (pool : List PoolItem) (budget : ℚ)
    (s s' : HState) (hne : s.hamper ≠ [])
    (h : refineIter rows pool budget s = some s') : s'.hamper ≠ [] := by
  simp only [refineIter] at h
  cases htb : tryBump rows (budget - s.total) s.hamper with
  | some res =>
    obtain ⟨k, cur, nq, inc⟩ := res
    rw [htb] at h
    simp only [Option.some.injEq] at h
    subst h
    exact replaceFirst_ne_nil s.hamper k nq hne
  | none =>
    rw [htb] at h
    cases htn : tryNewItem pool s.used (budget - s.total) with
    | none => rw [htn] at h; cases h
    | some e2 =>
      rw [htn] at h
      simp only [Option.some.injEq] at h
      subst h
      simp

theorem refineLoop_inv (rows : List Row) (pool : List PoolItem) (budget : ℚ)
    (hpool : ∀ e ∈ pool, PoolOK rows e) :
    ∀ (fuel : ℕ) (s : HState), Inv rows s →
      Inv rows (refineLoop rows pool budget fuel s) := by
  intro fuel
  induction fuel with
  | zero => exact fun s hs => hs
  | succ n ih =>
    intro s hs
    rw [refineLoop]
    by_cases hlt : s.total < budget * 0.99
    · rw [if_pos hlt]
      cases hit : refineIter rows pool budget s with
      | none => exact hs
      | some s' => exact ih s' (refineIter_inv rows pool budget s s' hs hpool hit)
    · rw [if_neg hlt]
      exact hs

theorem refineLoop_total_le (rows : List Row) (pool : List PoolItem) (budget : ℚ) :
    ∀ (fuel : ℕ) (s : HState), s.total ≤ budget →
      (refineLoop rows pool budget fuel s).total ≤ budget := by
  intro fuel
  induction fuel with
  | zero => exact fun s hs => hs
  | succ n ih =>
    intro s hs
    rw [refineLoop]
    by_cases hlt : s.total < budget * 0.99
    · rw [if_pos hlt]
      cases hit : refineIter rows pool budget s with
      | none => exact hs
      | some s' => exact ih s' (refineIter_total_le rows pool budget s s' hs hit)
    · rw [if_neg hlt]
      exact hs

theorem refineLoop_ne (rows : List Row) (pool : List PoolItem) (budget : ℚ) :
    ∀ (fuel : ℕ) (s : HState), s.hamper ≠ [] →
      (refineLoop rows pool budget fuel s).hamper ≠ [] := by
  intro fuel
  induction fuel with
  | zero => exact fun s hs => hs
  | succ n ih =>
    intro s hs
    rw [refineLoop]
    by_cases hlt : s.total < budget * 0.99
    · rw [if_pos hlt]
      cases hit : refineIter rows pool budget s with
      | none => exact hs
      | some s' => exact ih s' (refineIter_ne rows pool budget s s' hs hit)
    · rw [if_neg hlt]
      exact hs

/-! ### Phase 3 (final fill) lemmas -/

theorem mem_small_items (pool : List PoolItem) (used : List (Key × ℕ))
    (final_budget : ℚ) (e : PoolItem) (h : e ∈ small_items pool used final_budget) :
    e ∈ pool := (List.mem_filter.mp h).1

theorem finalStep_inv (rows : List Row) (budget : ℚ) (s : HState) (e : PoolItem)
    (hs : Inv rows s) (he : PoolOK rows e) : Inv rows (finalStep budget s e) := by
  obtain ⟨r, hfr, hq1, hq2, _, _, _⟩ := he
  cases hlu : lookupQty s.used (e.category, e.name) with
  | none =>
    by_cases hfit : s.total + e.total_cost ≤ budget
    · simp only [finalStep, hlu, if_pos hfit]
      exact inv_accept_new rows s e.category e.name e.qty _ hs
        ((lookupQty_eq_none_iff _ _).mp hlu) ⟨r, hfr, hq1, hq2⟩
    · simpa only [finalStep, hlu, if_neg hfit] using hs
  | some cur =>
    by_cases hlt : cur < e.qty
    · by_cases hfit : s.total + e.mrp * ((e.qty : ℚ) - (cur : ℚ)) ≤ budget
      · cases hfq : findQty s.hamper (e.category, e.name) with
        | some q0 =>
          simp only [finalStep, hlu, if_pos hlt, if_pos hfit, hfq]
          exact inv_replace rows s (e.category, e.name) e.qty _ hs
            (findQty_some_mem s.hamper _ q0 hfq) ⟨r, hfr, hq1, hq2⟩
        | none =>
          simpa only [finalStep, hlu, if_pos hlt, if_pos hfit, hfq] using hs
      · simpa only [finalStep, hlu, if_pos hlt, if_neg hfit] using hs
    · simpa only [finalStep, hlu, if_neg hlt] using hs

theorem finalStep_total_le (budget : ℚ) (s : HState) (e : PoolItem)
    (hle : s.total ≤ budget) : (finalStep budget s e).total ≤ budget := by
  cases hlu : lookupQty s.used (e.category, e.name) with
  | none =>
    by_cases hfit : s.total + e.total_cost ≤ budget
    · simpa only [finalStep, hlu, if_pos hfit] using hfit
    · simpa only [finalStep, hlu, if_neg hfit] using hle
  | some cur =>
    by_cases hlt : cur < e.qty
    · by_cases hfit : s.total + e.mrp * ((e.qty : ℚ) - (cur : ℚ)) ≤ budget
      · cases hfq : findQty s.hamper (e.category, e.name) with
        | some q0 => simpa only [finalStep, hlu, if_pos hlt, if_pos hfit, hfq] using hfit
        | none => simpa only [finalStep, hlu, if_pos hlt, if_pos hfit, hfq] using hle
      · simpa only [finalStep, hlu, if_pos hlt, if_neg hfit] using hle
    · simpa only [finalStep, hlu, if_neg hlt] using hle

theorem finalStep_ne (budget : ℚ) (s : HState) (e : PoolItem)
    (hne : s.hamper ≠ []) : (finalStep budget s e).hamper ≠ [] := by
  cases hlu : lookupQty s.used (e.category, e.name) with
  | none =>
    by_cases hfit : s.total + e.total_cost ≤ budget
    · simp only [finalStep, hlu, if_pos hfit]
      simp
    · simpa only [finalStep, hlu, if_neg hfit] using hne
  | some cur =>
    by_cases hlt : cur < e.qty
    · by_cases hfit : s.total + e.mrp * ((e.qty : ℚ) - (cur : ℚ)) ≤ budget
      · cases hfq : findQty s.hamper (e.category, e.name) with
        | some q0 =>
          simp only [finalStep, hlu, if_pos hlt, if_pos hfit, hfq]
          exact replaceFirst_ne_nil s.hamper _ e.qty hne
        | none => simpa only [finalStep, hlu, if_pos hlt, if_pos hfit, hfq] using hne
      · simpa only [finalStep, hlu, if_pos hlt, if_neg hfit] using hne
    · simpa only [finalStep, hlu, if_neg hlt] using hne

theorem phase3_inv (rows : List Row) (pool : List PoolItem) (budget : ℚ) (s : HState)
    (hs : Inv rows s) (hpool : ∀ e ∈ pool, PoolOK rows e) :
    Inv rows (phase3 pool budget s) := by
  rw [phase3]
  by_cases hfb : 0 < budget - s.total
  · rw [if_pos hfb]
    exact foldl_pres _ (Inv rows) (PoolOK rows)
      (fun t e ht he => finalStep_inv rows budget t e ht he) _ s hs
      (fun e hme => hpool e (mem_small_items pool s.used _ e
        ((mem_items_by_cost_desc _ e).mp hme)))
  · rw [if_neg hfb]
    exact hs

theorem phase3_total_le (pool : List PoolItem) (budget : ℚ) (s : HState)
    (hle : s.total ≤ budget) : (phase3 pool budget s).total ≤ budget := by
  rw [phase3]
  by_cases hfb : 0 < budget - s.total
  · rw [if_pos hfb]
    exact foldl_pres _ (fun t => t.total ≤ budget) (fun _ => True)
      (fun t e ht _ => finalStep_total_le budget t e ht) _ s hle (fun _ _ => trivial)
  · rw [if_neg hfb]
    exact hle

theorem phase3_ne (pool : List PoolItem) (budget : ℚ) (s : HState)
    (hne : s.hamper ≠ []) : (phase3 pool budget s).hamper ≠ [] := by
  rw [phase3]
  by_cases hfb : 0 < budget - s.total
  · rw [if_pos hfb]
    exact foldl_pres _ (fun t => t.hamper ≠ []) (fun _ => True)
      (fun t e ht _ => finalStep_ne budget t e ht) _ s hne (fun _ _ => trivial)
  · rw [if_neg hfb]
    exact hne

/-! ### Whole-pipeline lemmas -/

theorem create_hamper_def (data : List Row) (budget : ℚ)
    (selected_categories selected_inventory selected_status selected_brands : List String)
    (min_days max_days today : ℤ) :
    create_hamper data budget selected_categories selected_inventory
        selected_status selected_brands min_days max_days today =
      if (filterInventory data selected_categories selected_inventory
            selected_status selected_brands min_days max_days today).isEmpty then ([], 0)
      else
        ((phase3 (items_pool (filterInventory data selected_categories selected_inventory
              selected_status selected_brands min_days max_days today)) budget
            (refineLoop (filterInventory data selected_categories selected_inventory
                selected_status selected_brands min_days max_days today)
              (items_pool (filterInventory data selected_categories selected_inventory
                selected_status selected_brands min_days max_days today)) budget 100
              (phase1 (items_pool (filterInventory data selected_categories selected_inventory
                selected_status selected_brands min_days max_days today)) budget))).hamper,
         (phase3 (items_pool (filterInventory data selected_categories selected_inventory
              selected_status selected_brands min_days max_days today)) budget
            (refineLoop (filterInventory data selected_categories selected_inventory
                selected_status selected_brands min_days max_days today)
              (items_pool (filterInventory data selected_categories selected_inventory
                selected_status selected_brands min_days max_days today)) budget 100
              (phase1 (items_pool (filterInventory data selected_categories selected_inventory
                selected_status selected_brands min_days max_days today)) budget))).total) :=
  rfl

/-- The final state of the pipeline on a non-empty filtered view satisfies the
invariant. -/
theorem pipeline_inv (rows : List Row) (budget : ℚ) :
    Inv rows (phase3 (items_pool rows) budget
      (refineLoop rows (items_pool rows) budget 100 (phase1 (items_pool rows) budget))) := by
  have hpool : ∀ e ∈ items_pool rows, PoolOK rows e := mem_items_pool rows
  exact phase3_inv rows _ budget _
    (refineLoop_inv rows _ budget hpool 100 _ (phase1_inv rows _ budget hpool)) hpool

theorem strategyRuns_ne (pool : List PoolItem) (budget : ℚ) :
    ∀ t ∈ strategyRuns pool budget, NEState t := by
  intro t ht
  rcases List.mem_cons.mp ht with rfl | ht
  · exact runStrategy_ne budget _
  rcases List.mem_cons.mp ht with rfl | ht
  · exact runStrategy_ne budget _
  rcases List.mem_cons.mp ht with rfl | ht
  · exact runStrategy_ne (budget * 1.02) _
  · cases ht

theorem refineLoop_init_ne (rows : List Row) (pool : List PoolItem) (budget : ℚ)
    (hb : 0 < budget) (haff : ∃ e ∈ pool, e.total_cost ≤ budget) :
    (refineLoop rows pool budget 100 initState).hamper ≠ [] := by
  rw [show (100 : ℕ) = 99 + 1 from rfl, refineLoop]
  have h0 : initState.total < budget * 0.99 := by
    show (0 : ℚ) < budget * 0.99
    have h99 : (0 : ℚ) < 0.99 := by norm_num
    exact mul_pos hb h99
  rw [if_pos h0]
  obtain ⟨e, he, hce⟩ := haff
  have hcost : decide (e.total_cost ≤ budget - initState.total) = true := by
    apply decide_eq_true
    show e.total_cost ≤ budget - 0
    simpa using hce
  have hmemc : e ∈ newItemCandidates pool initState.used (budget - initState.total) := by
    apply List.mem_filter.mpr
    refine ⟨he, ?_⟩
    rw [hcost]
    rfl
  have hisome : (tryNewItem pool initState.used (budget - initState.total)).isSome := by
    rw [tryNewItem, List.find?_isSome]
    exact ⟨e, (mem_items_by_cost_desc _ _).mpr hmemc, hcost⟩
  obtain ⟨e2, he2⟩ := Option.isSome_iff_exists.mp hisome
  have htb : tryBump rows (budget - initState.total) initState.hamper = none := rfl
  have hri : refineIter rows pool budget initState =
      some { hamper := initState.hamper ++ [(e2.category, e2.name, e2.qty)],
             total := initState.total + e2.total_cost,
             used := setQty initState.used (e2.category, e2.name) e2.qty } := by
    simp only [refineIter, htb, he2]
  rw [hri]
  apply refineLoop_ne
  simp

/-! ### Claim C1 -/

/-- C1: for every call to `create_hamper` with positive budget, the total cost
of the returned hamper is at most the budget; the inflated `1.02 * budget`
ceiling used inside the cost-descending strategy never leaks into the final
result, because the best-of-three selection and all refinement/final-fill
acceptances are checked against the budget itself. -/
theorem hamper_C1 (data : List Row) (budget : ℚ)
    (selected_categories selected_inventory selected_status selected_brands : List String)
    (min_days max_days today : ℤ) (hb : 0 < budget) :
    (create_hamper data budget selected_categories selected_inventory
      selected_status selected_brands min_days max_days today).2 ≤ budget := by
  rw [create_hamper_def]
  by_cases hemp : (filterInventory data selected_categories selected_inventory
      selected_status selected_brands min_days max_days today).isEmpty
  · rw [if_pos hemp]
    exact le_of_lt hb
  · rw [if_neg hemp]
    exact phase3_total_le _ budget _
      (refineLoop_total_le _ _ budget 100 _ (phase1_total_le _ budget (le_of_lt hb)))

/-- Witness for C1 at a concrete inventory: one item priced 100 with 5
available units inside the window, budget 250. -/
theorem hamper_C1_witness :
    (0 : ℚ) < 250 ∧
      (create_hamper [⟨"Snacks", "Choco", 100, 5, 50, "B", "W", "Active"⟩] 250
        ["Snacks"] ["W"] ["Active"] ["B"] 30 365 0).2 ≤ 250 :=
  ⟨by norm_num,
   hamper_C1 [⟨"Snacks", "Choco", 100, 5, 50, "B", "W", "Active"⟩] 250
     ["Snacks"] ["W"] ["Active"] ["B"] 30 365 0 (by norm_num)⟩

/-! ### Claim C2 -/

/-- C2: the hamper returned by `create_hamper` never holds two lines with the
same (category, name) key: the key list of the result is duplicate-free. -/
theorem hamper_C2 (data : List Row) (budget : ℚ)
    (selected_categories selected_inventory selected_status selected_brands : List String)
    (min_days max_days today : ℤ) :
    (keysOf (create_hamper data budget selected_categories selected_inventory
      selected_status selected_brands min_days max_days today).1).Nodup := by
  rw [create_hamper_def]
  by_cases hemp : (filterInventory data selected_categories selected_inventory
      selected_status selected_brands min_days max_days today).isEmpty
  · rw [if_pos hemp]
    simp [keysOf]
  · rw [if_neg hemp]
    exact (pipeline_inv _ budget).1

/-! ### Claim C8 -/

/-- C8: every line of the hamper returned by `create_hamper` has a quantity
between 1 and `min(available_units, 20)` of the row its key resolves to in the
filtered inventory view used at candidate-generation time. -/
theorem hamper_C8 (data : List Row) (budget : ℚ)
    (selected_categories selected_inventory selected_status selected_brands : List String)
    (min_days max_days today : ℤ) (l : Line)
    (hl : l ∈ (create_hamper data budget selected_categories selected_inventory
      selected_status selected_brands min_days max_days today).1) :
    ∃ r, findRow (filterInventory data selected_categories selected_inventory
        selected_status selected_brands min_days max_days today) l.1 l.2.1 = some r ∧
      1 ≤ l.2.2 ∧ l.2.2 ≤ min r.availableUnits 20 := by
  rw [create_hamper_def] at hl
  by_cases hemp : (filterInventory data selected_categories selected_inventory
      selected_status selected_brands min_days max_days today).isEmpty
  · rw [if_pos hemp] at hl
    cases hl
  · rw [if_neg hemp] at hl
    exact (pipeline_inv _ budget).2.2 l hl

/-- Witness for C8: in the one-item scenario the returned line
("Snacks", "Choco", 2) satisfies the quantity bounds. -/
theorem hamper_C8_witness :
    ∃ r, findRow (filterInventory [⟨"Snacks", "Choco", 100, 5, 50, "B", "W", "Active"⟩]
        ["Snacks"] ["W"] ["Active"] ["B"] 30 365 0) "Snacks" "Choco" = some r ∧
      1 ≤ 2 ∧ 2 ≤ min r.availableUnits 20 :=
  hamper_C8 [⟨"Snacks", "Choco", 100, 5, 50, "B", "W", "Active"⟩] 250
    ["Snacks"] ["W"] ["Active"] ["B"] 30 365 0 ("Snacks", "Choco", 2)
    (by with_unfolding_all decide)

/-! ### Claim C10 -/

/-- C10: whenever the candidate pool generated from the filtered view has an
entry whose line cost fits the (positive) budget, the returned hamper is
non-empty: either a strategy produced a feasible positive-total result, or the
refinement loop's new-item attempt appends an affordable entry. -/
theorem hamper_C10 (data : List Row) (budget : ℚ)
    (selected_categories selected_inventory selected_status selected_brands : List String)
    (min_days max_days today : ℤ) (hb : 0 < budget)
    (haff : ∃ e ∈ items_pool (filterInventory data selected_categories selected_inventory
        selected_status selected_brands min_days max_days today),
      e.total_cost ≤ budget) :
    (create_hamper data budget selected_categories selected_inventory
      selected_status selected_brands min_days max_days today).1 ≠ [] := by
  rw [create_hamper_def]
  have hemp : ¬ (filterInventory data selected_categories selected_inventory
      selected_status selected_brands min_days max_days today).isEmpty := by
    intro hq
    obtain ⟨e, he, _⟩ := haff
    rw [List.isEmpty_iff] at hq
    rw [hq] at he
    simp [items_pool, unique_items, dropDupAux] at he
  rw [if_neg hemp]
  apply phase3_ne
  rcases phase1_pos (items_pool (filterInventory data selected_categories selected_inventory
      selected_status selected_brands min_days max_days today)) budget with hp | hp
  · rw [hp]
    exact refineLoop_init_ne _ _ budget hb haff
  · exact refineLoop_ne _ _ budget 100 _
      (strategyRuns_ne _ budget _ hp.1 (ne_of_gt hp.2))

/-- Witness for C10: the one-item scenario has an affordable pool entry and the
result is indeed non-empty. -/
theorem hamper_C10_witness :
    (create_hamper [⟨"Snacks", "Choco", 100, 5, 50, "B", "W", "Active"⟩] 250
      ["Snacks"] ["W"] ["Active"] ["B"] 30 365 0).1 ≠ [] :=
  hamper_C10 [⟨"Snacks", "Choco", 100, 5, 50, "B", "W", "Active"⟩] 250
    ["Snacks"] ["W"] ["Active"] ["B"] 30 365 0 (by norm_num)
    ⟨⟨"Snacks", "Choco", 100, 1, 100, 5, 100⟩, by with_unfolding_all decide,
      by with_unfolding_all decide⟩

/-! ### Claim C3 -/

/-- The hypothetical total as claim C3 words it: first remove the cost of any
already-chosen line for the same (category, name) key, then add this entry's
line cost. -/
def claimHypotheticalTotal (s : HState) (item : PoolItem) : ℚ :=
  (match findQty s.hamper (item.category, item.name) with
   | some old_qty => s.total - item.mrp * (old_qty : ℚ)
   | none => s.total) + item.total_cost

/-- Concrete row for the C3 counterexample: price 40, two units available. -/
def cexRow3 : Row := ⟨"c", "n", 40, 2, 50, "b", "w", "a"⟩

/-- The quantity-1 pool entry of `cexRow3`. -/
def cexEntry31 : PoolItem := ⟨"c", "n", 40, 1, 40, 2, 40⟩

/-- The quantity-2 pool entry of `cexRow3`. -/
def cexEntry32 : PoolItem := ⟨"c", "n", 40, 2, 80, 2, 40⟩

/-- The strategy state after the cost-ascending pass accepts `cexEntry31`. -/
def cexState3 : HState := ⟨[("c", "n", 1)], 40, [(("c", "n"), 1)]⟩

/-- C3 counterexample: with budget 80 the cost-ascending pass over the pool of
`cexRow3` reaches `cexState3` after the first entry; the claim's hypothetical
total for the quantity-2 entry is 40 − 40 + 80 = 80 ≤ 80, so the claim says the
entry is accepted, but the code rejects it (its check is 40 + 80 > 80), leaving
the state unchanged and the pass ending with quantity 1. -/
theorem hamper_C3_counterexample :
    items_by_cost (items_pool [cexRow3]) = [cexEntry31, cexEntry32] ∧
    stratStep 80 initState cexEntry31 = cexState3 ∧
    claimHypotheticalTotal cexState3 cexEntry32 ≤ 80 ∧
    stratStep 80 cexState3 cexEntry32 = cexState3 ∧
    runStrategy 80 (items_by_cost (items_pool [cexRow3])) = cexState3 ∧
    cexEntry32.qty = 2 ∧ lookupQty cexState3.used ("c", "n") = some 1 := by
  with_unfolding_all decide

/-- The Phase 1 acceptance step as claim C3 must be amended to describe it: an
entry whose key is already chosen with at least its quantity is skipped;
otherwise the entry is accepted iff the current running total plus the entry's
line cost — without removing the old same-key cost first — is at most the
ceiling; only on acceptance is the old same-key line popped, its cost
subtracted (yielding the claim's hypothetical total), and the quantity
overwritten. -/
def amendedStratStep (budget_limit : ℚ) (s : HState) (item : PoolItem) : HState :=
  if ∃ prev, lookupQty s.used (item.category, item.name) = some prev ∧ item.qty ≤ prev then s
  else if s.total + item.total_cost ≤ budget_limit then
    { hamper := removeKey s.hamper (item.category, item.name) ++
        [(item.category, item.name, item.qty)],
      total := claimHypotheticalTotal s item,
      used := setQty s.used (item.category, item.name) item.qty }
  else s

instance (o : Option ℕ) (n : ℕ) : Decidable (∃ prev, o = some prev ∧ n ≤ prev) :=
  match o with
  | some prev =>
    if hq : n ≤ prev then Decidable.isTrue ⟨prev, rfl, hq⟩
    else
      Decidable.isFalse (by
        rintro ⟨p, hp, hle⟩
        injection hp with hh
        exact hq (by rw [hh]; exact hle))
  | none =>
    Decidable.isFalse (by
      rintro ⟨p, hp, _⟩
      cases hp)

/-- C3 amended: on any state whose dict keys agree with its hamper keys (the
invariant of every pass), the code's step equals `amendedStratStep`. -/
theorem hamper_C3_amended (budget_limit : ℚ) (s : HState) (e : PoolItem)
    (hum : ∀ k, k ∈ usedKeys s.used ↔ k ∈ keysOf s.hamper) :
    stratStep budget_limit s e = amendedStratStep budget_limit s e := by
  cases hlu : lookupQty s.used (e.category, e.name) with
  | some prev =>
    by_cases hskip : e.qty ≤ prev
    · have hex : ∃ p, lookupQty s.used (e.category, e.name) = some p ∧ e.qty ≤ p :=
        ⟨prev, hlu, hskip⟩
      rw [amendedStratStep, if_pos hex]
      simp only [stratStep, hlu, if_pos hskip]
    · have hex : ¬ ∃ p, lookupQty s.used (e.category, e.name) = some p ∧ e.qty ≤ p := by
        rintro ⟨p, hp, hq⟩
        rw [hlu, Option.some.injEq] at hp
        exact hskip (hp ▸ hq)
      by_cases hfit : s.total + e.total_cost ≤ budget_limit
      · rw [amendedStratStep, if_neg hex, if_pos hfit, claimHypotheticalTotal]
        simp only [stratStep, hlu, if_neg hskip, if_pos hfit]
      · rw [amendedStratStep, if_neg hex, if_neg hfit]
        simp only [stratStep, hlu, if_neg hskip, if_neg hfit]
  | none =>
    have hex : ¬ ∃ p, lookupQty s.used (e.category, e.name) = some p ∧ e.qty ≤ p := by
      rintro ⟨p, hp, _⟩
      rw [hlu] at hp
      cases hp
    have hkh : (e.category, e.name) ∉ keysOf s.hamper := fun hc =>
      ((lookupQty_eq_none_iff _ _).mp hlu) ((hum _).mpr hc)
    by_cases hfit : s.total + e.total_cost ≤ budget_limit
    · rw [amendedStratStep, if_neg hex, if_pos hfit, claimHypotheticalTotal,
        removeKey_of_not_mem _ _ hkh, (findQty_eq_none_iff _ _).mpr hkh]
      simp only [stratStep, hlu, if_pos hfit]
    · rw [amendedStratStep, if_neg hex, if_neg hfit]
      simp only [stratStep, hlu, if_neg hfit]

/-- Witness for the amended C3 on a concrete in-sync state. -/
theorem hamper_C3_amended_witness :
    stratStep 80 cexState3 cexEntry32 = amendedStratStep 80 cexState3 cexEntry32 :=
  hamper_C3_amended 80 cexState3 cexEntry32 (fun _ => Iff.rfl)

/-! ### Claim C4 -/

/-- Feasibility in the amended C4 sense: a strategy result with positive total
within budget. -/
def feasiblePos (budget : ℚ) (s : HState) : Prop := 0 < s.total ∧ s.total ≤ budget

instance (budget : ℚ) (s : HState) : Decidable (feasiblePos budget s) :=
  inferInstanceAs (Decidable (0 < s.total ∧ s.total ≤ budget))

/-- The best-of-three selection as the amended claim C4 words it: the first
strategy result whose total is positive, within budget, and at least every
later feasible total (so ties keep declaration order); if no strategy result
has a positive total within budget, the empty state. -/
def claimSelect3 (budget : ℚ) (s1 s2 s3 : HState) : HState :=
  if feasiblePos budget s1 ∧ (feasiblePos budget s2 → s2.total ≤ s1.total) ∧
      (feasiblePos budget s3 → s3.total ≤ s1.total) then s1
  else if feasiblePos budget s2 ∧ (feasiblePos budget s3 → s3.total ≤ s2.total) then s2
  else if feasiblePos budget s3 then s3
  else initState

theorem pickStep_three (b : ℚ) (a c d : HState) :
    [a, c, d].foldl (pickStep b) initState = claimSelect3 b a c d := by
  simp only [List.foldl_cons, List.foldl_nil]
  by_cases f1 : 0 < a.total ∧ a.total ≤ b
  · have s1 : pickStep b initState a = a := by
      unfold pickStep
      rw [if_pos]
      exact ⟨f1.1, f1.2⟩
    rw [s1]
    by_cases f2 : a.total < c.total ∧ c.total ≤ b
    · have s2 : pickStep b a c = c := by unfold pickStep; rw [if_pos f2]
      rw [s2]
      have fc : feasiblePos b c := ⟨lt_trans f1.1 f2.1, f2.2⟩
      have hnc1 : ¬ (feasiblePos b a ∧ (feasiblePos b c → c.total ≤ a.total) ∧
          (feasiblePos b d → d.total ≤ a.total)) := by
        rintro ⟨-, hca, -⟩
        exact absurd (hca fc) (not_le.mpr f2.1)
      by_cases f3 : c.total < d.total ∧ d.total ≤ b
      · have s3 : pickStep b c d = d := by unfold pickStep; rw [if_pos f3]
        rw [s3]
        have fd : feasiblePos b d := ⟨lt_trans fc.1 f3.1, f3.2⟩
        have hnc2 : ¬ (feasiblePos b c ∧ (feasiblePos b d → d.total ≤ c.total)) := by
          rintro ⟨-, hdc⟩
          exact absurd (hdc fd) (not_le.mpr f3.1)
        rw [claimSelect3, if_neg hnc1, if_neg hnc2, if_pos fd]
      · have s3 : pickStep b c d = c := by unfold pickStep; rw [if_neg f3]
        rw [s3]
        have hdc : feasiblePos b d → d.total ≤ c.total := by
          intro fd
          by_contra hlt
          exact f3 ⟨not_le.mp hlt, fd.2⟩
        rw [claimSelect3, if_neg hnc1, if_pos ⟨fc, hdc⟩]
    · have s2 : pickStep b a c = a := by unfold pickStep; rw [if_neg f2]
      rw [s2]
      have hca : feasiblePos b c → c.total ≤ a.total := by
        intro fc2
        by_contra hlt
        exact f2 ⟨not_le.mp hlt, fc2.2⟩
      by_cases f3 : a.total < d.total ∧ d.total ≤ b
      · have s3 : pickStep b a d = d := by unfold pickStep; rw [if_pos f3]
        rw [s3]
        have fd : feasiblePos b d := ⟨lt_trans f1.1 f3.1, f3.2⟩
        have hnc1 : ¬ (feasiblePos b a ∧ (feasiblePos b c → c.total ≤ a.total) ∧
            (feasiblePos b d → d.total ≤ a.total)) := by
          rintro ⟨-, -, hda⟩
          exact absurd (hda fd) (not_le.mpr f3.1)
        have hnc2 : ¬ (feasiblePos b c ∧ (feasiblePos b d → d.total ≤ c.total)) := by
          rintro ⟨fc2, hdc⟩
          have hle1 := hca fc2
          have hle2 := hdc fd
          have hlt := f3.1
          linarith
        rw [claimSelect3, if_neg hnc1, if_neg hnc2, if_pos fd]
      · have s3 : pickStep b a d = a := by unfold pickStep; rw [if_neg f3]
        rw [s3]
        have hda : feasiblePos b d → d.total ≤ a.total := by
          intro fd
          by_contra hlt
          exact f3 ⟨not_le.mp hlt, fd.2⟩
        rw [claimSelect3, if_pos ⟨f1, hca, hda⟩]
  · have s1 : pickStep b initState a = initState := by
      unfold pickStep
      rw [if_neg]
      exact f1
    rw [s1]
    have hnc1 : ¬ (feasiblePos b a ∧ (feasiblePos b c → c.total ≤ a.total) ∧
        (feasiblePos b d → d.total ≤ a.total)) := fun hh => f1 hh.1
    by_cases f2 : 0 < c.total ∧ c.total ≤ b
    · have s2 : pickStep b initState c = c := by
        unfold pickStep
        rw [if_pos]
        exact ⟨f2.1, f2.2⟩
      rw [s2]
      by_cases f3 : c.total < d.total ∧ d.total ≤ b
      · have s3 : pickStep b c d = d := by unfold pickStep; rw [if_pos f3]
        rw [s3]
        have fd : feasiblePos b d := ⟨lt_trans f2.1 f3.1, f3.2⟩
        have hnc2 : ¬ (feasiblePos b c ∧ (feasiblePos b d → d.total ≤ c.total)) := by
          rintro ⟨-, hdc⟩
          exact absurd (hdc fd) (not_le.mpr f3.1)
        rw [claimSelect3, if_neg hnc1, if_neg hnc2, if_pos fd]
      · have s3 : pickStep b c d = c := by unfold pickStep; rw [if_neg f3]
        rw [s3]
        have hdc : feasiblePos b d → d.total ≤ c.total := by
          intro fd
          by_contra hlt
          exact f3 ⟨not_le.mp hlt, fd.2⟩
        rw [claimSelect3, if_neg hnc1, if_pos ⟨f2, hdc⟩]
    · have s2 : pickStep b initState c = initState := by
        unfold pickStep
        rw [if_neg]
        exact f2
      rw [s2]
      have hnc2 : ¬ (feasiblePos b c ∧ (feasiblePos b d → d.total ≤ c.total)) :=
        fun hh => f2 hh.1
      by_cases f3 : 0 < d.total ∧ d.total ≤ b
      · have s3 : pickStep b initState d = d := by
          unfold pickStep
          rw [if_pos]
          exact ⟨f3.1, f3.2⟩
        rw [s3]
        rw [claimSelect3, if_neg hnc1, if_neg hnc2,
          if_pos (show feasiblePos b d from f3)]
      · have s3 : pickStep b initState d = initState := by
          unfold pickStep
          rw [if_neg]
          exact f3
        rw [s3]
        rw [claimSelect3, if_neg hnc1, if_neg hnc2,
          if_neg (show ¬ feasiblePos b d from f3)]

/-- Concrete row for the C4 counterexample: price 0, one unit available. -/
def cexRow4 : Row := ⟨"c", "n", 0, 1, 50, "b", "w", "a"⟩

/-- The cost-ascending strategy result on `cexRow4` with budget 10: a non-empty
hamper with total 0. -/
def cexRun4 : HState := ⟨[("c", "n", 1)], 0, [(("c", "n"), 1)]⟩

/-- C4 counterexample: on a zero-priced item with budget 10, the first strategy
yields a feasible (total 0 ≤ 10) non-empty result, so the claim's selection
rule would choose it; but the code's strict `temp_total > best_total` test
never fires at total 0 and the chosen result is the empty state. -/
theorem hamper_C4_counterexample :
    runStrategy 10 (items_by_cost (items_pool [cexRow4])) = cexRun4 ∧
    cexRun4.hamper ≠ [] ∧ cexRun4.total ≤ 10 ∧
    (strategyRuns (items_pool [cexRow4]) 10).head? = some cexRun4 ∧
    phase1 (items_pool [cexRow4]) 10 = initState ∧
    initState.hamper = [] := by
  with_unfolding_all decide

/-- C4 amended: the Strategy Runner's chosen result is the strategy result with
the largest total among those with positive total ≤ budget, ties resolved in
declaration order; if no strategy produces a positive-total feasible result
(in particular a feasible but zero-total non-empty one), the chosen result is
the empty state. -/
theorem hamper_C4_amended (pool : List PoolItem) (budget : ℚ) :
    phase1 pool budget =
      claimSelect3 budget (runStrategy budget (items_by_cost pool))
        (runStrategy budget (items_by_efficiency pool))
        (runStrategy (budget * 1.02) (items_by_cost_desc pool)) := by
  rw [phase1, strategyRuns]
  exact pickStep_three budget _ _ _

/-! ### Claim C5 -/

/-- The Final-Fill candidate list exactly as claim C5 words it: pool entries
either (a) for keys not in the hamper with line cost at most the remaining
budget, or (b) for keys already in the hamper whose quantity would strictly
increase at an incremental cost at most the remaining budget — with no line
cost bound in case (b). -/
def claimFinalCandidates (pool : List PoolItem) (hamper : List Line) (R : ℚ) :
    List PoolItem :=
  pool.filter fun item =>
    match findQty hamper (item.category, item.name) with
    | none => decide (item.total_cost ≤ R)
    | some prev =>
      decide (prev < item.qty) &&
        decide (item.mrp * ((item.qty : ℚ) - (prev : ℚ)) ≤ R)

/-- Concrete row for the C5 counterexample: price 50, three units available. -/
def cexRow5 : Row := ⟨"c", "n", 50, 3, 50, "b", "w", "a"⟩

/-- The `used_items` dict at entry to the final fill: the key is held at
quantity 2. -/
def cexUsed5 : List (Key × ℕ) := [(("c", "n"), 2)]

/-- The hamper matching `cexUsed5`. -/
def cexHamper5 : List Line := [("c", "n", 2)]

/-- The quantity-3 pool entry of `cexRow5` (line cost 150, incremental cost 50
over quantity 2). -/
def cexEntry53 : PoolItem := ⟨"c", "n", 50, 3, 150, 3, 50⟩

/-- C5 counterexample: with remaining budget 60, the quantity-3 entry has
incremental cost 50 ≤ 60 and would strictly increase the held quantity, so the
claim's candidate rule includes it; but the code's `small_items` also demands
line cost 150 ≤ 60 and excludes it. -/
theorem hamper_C5_counterexample :
    cexEntry53 ∈ items_pool [cexRow5] ∧
    cexEntry53 ∈ claimFinalCandidates (items_pool [cexRow5]) cexHamper5 60 ∧
    cexEntry53 ∉ small_items (items_pool [cexRow5]) cexUsed5 60 ∧
    usedKeys cexUsed5 = keysOf cexHamper5 ∧
    lookupQty cexUsed5 ("c", "n") = findQty cexHamper5 ("c", "n") := by
  with_unfolding_all decide

/-- C5 amended: an entry is in the final-fill candidate list iff it is a pool
entry whose line cost is at most the remaining budget and that is either for an
unused key, or for a used key whose quantity strictly increases at an
incremental cost within the remaining budget; the swept list is a permutation
of the candidates sorted by line cost descending, with ties kept in original
pool order (the candidate list is a sublist of the pool and any two equal-cost
candidates keep their relative order through the sort). -/
theorem hamper_C5_amended (pool : List PoolItem) (used : List (Key × ℕ)) (R : ℚ) :
    (∀ e, e ∈ small_items pool used R ↔
      e ∈ pool ∧ e.total_cost ≤ R ∧
        (lookupQty used (e.category, e.name) = none ∨
          ∃ prev, lookupQty used (e.category, e.name) = some prev ∧ prev < e.qty ∧
            e.mrp * ((e.qty : ℚ) - (prev : ℚ)) ≤ R)) ∧
    (items_by_cost_desc (small_items pool used R)).Perm (small_items pool used R) ∧
    (items_by_cost_desc (small_items pool used R)).Sorted
      (fun a b : PoolItem => b.total_cost ≤ a.total_cost) ∧
    (small_items pool used R).Sublist pool ∧
    (∀ a b : PoolItem, a.total_cost = b.total_cost →
      [a, b].Sublist (small_items pool used R) →
      [a, b].Sublist (items_by_cost_desc (small_items pool used R))) := by
  refine ⟨?_, List.perm_insertionSort _ _, ?_, ?_, ?_⟩
  · intro e
    rw [small_items, List.mem_filter]
    constructor
    · rintro ⟨hp, hcond⟩
      simp only [Bool.and_eq_true, decide_eq_true_eq] at hcond
      refine ⟨hp, hcond.1, ?_⟩
      cases hlu : lookupQty used (e.category, e.name) with
      | none => exact Or.inl rfl
      | some prev =>
        have hcond2 := hcond.2
        rw [hlu] at hcond2
        simp only [Bool.and_eq_true, decide_eq_true_eq] at hcond2
        exact Or.inr ⟨prev, rfl, hcond2.1, hcond2.2⟩
    · rintro ⟨hp, hcost, hor⟩
      refine ⟨hp, ?_⟩
      rcases hor with hlu | ⟨prev, hlu, hlt, hinc⟩
      · rw [hlu]
        simp [hcost]
      · rw [hlu]
        simp [hcost, hlt, hinc]
  · haveI hto : IsTotal PoolItem (fun a b : PoolItem => b.total_cost ≤ a.total_cost) :=
      ⟨fun a b => le_total b.total_cost a.total_cost⟩
    haveI htr : IsTrans PoolItem (fun a b : PoolItem => b.total_cost ≤ a.total_cost) :=
      ⟨fun _ _ _ hab hbc => le_trans hbc hab⟩
    exact List.sorted_insertionSort _ _
  · rw [small_items]
    exact List.filter_sublist _
  · intro a b heq hsub
    rw [items_by_cost_desc]
    exact List.pair_sublist_insertionSort (le_of_eq heq.symm) hsub

/-! ### Claim C6 -/

/-- C6: on an inventory view whose filtered content is exactly one item priced
100 with 5 available units inside the expiry window, `create_hamper` with
budget 250 returns the single line at quantity 2 with total cost 200. -/
theorem hamper_C6 :
    create_hamper [⟨"Snacks", "Choco", 100, 5, 50, "B", "W", "Active"⟩] 250
      ["Snacks"] ["W"] ["Active"] ["B"] 30 365 0 = ([("Snacks", "Choco", 2)], 200) := by
  with_unfolding_all decide

/-! ### Claim C7 -/

/-- Decode of the replacement-engine filter: every suggestion comes from a row
of the view with the requested category (the excluded name removed) passing the
inventory-holding, status, brand and expiry-window filters. -/
theorem mem_suggestions (data : List Row) (category current_item : String)
    (selected_inventory selected_status selected_brands : List String)
    (min_days max_days today : ℤ) (s : Suggestion)
    (hs : s ∈ get_replacement_suggestions data category current_item selected_inventory
      selected_status selected_brands min_days max_days today) :
    ∃ r ∈ data, r.category = category ∧ r.name ≠ current_item ∧
      selected_inventory.contains r.inventoryHolding = true ∧
      selected_status.contains r.productStatus = true ∧
      selected_brands.contains r.brand = true ∧
      is_within_expiry r.expiryDate today min_days max_days = true ∧
      s = ⟨r.name, r.mrp, r.availableUnits, r.expiryDate, r.brand⟩ := by
  simp only [get_replacement_suggestions] at hs
  obtain ⟨r, hr, rfl⟩ := List.mem_map.mp hs
  have hr2 : r ∈ List.insertionSort (fun a b : Row => a.mrp ≤ b.mrp)
      (data.filter fun r => decide (r.category = category) &&
        decide (r.name ≠ current_item) &&
        selected_inventory.contains r.inventoryHolding &&
        selected_status.contains r.productStatus &&
        selected_brands.contains r.brand &&
        is_within_expiry r.expiryDate today min_days max_days) :=
    (List.take_sublist 7 _).subset hr
  rw [List.mem_insertionSort] at hr2
  obtain ⟨hrd, hpred⟩ := List.mem_filter.mp hr2
  simp only [Bool.and_eq_true, decide_eq_true_eq] at hpred
  exact ⟨r, hrd, hpred.1.1.1.1.1, hpred.1.1.1.1.2, hpred.1.1.1.2, hpred.1.1.2,
    hpred.1.2, hpred.2, rfl⟩

/-- C7: `get_replacement_suggestions` never returns the excluded item, returns
at most 7 entries sorted by unit price ascending, and every entry comes from a
row of the requested category passing the active filters and expiry window
(the empty list being a legitimate value of the same shape). -/
theorem hamper_C7 (data : List Row) (category current_item : String)
    (selected_inventory selected_status selected_brands : List String)
    (min_days max_days today : ℤ) :
    (∀ s ∈ get_replacement_suggestions data category current_item selected_inventory
        selected_status selected_brands min_days max_days today,
      s.name ≠ current_item) ∧
    (get_replacement_suggestions data category current_item selected_inventory
        selected_status selected_brands min_days max_days today).length ≤ 7 ∧
    (get_replacement_suggestions data category current_item selected_inventory
        selected_status selected_brands min_days max_days today).Sorted
      (fun a b : Suggestion => a.mrp ≤ b.mrp) ∧
    (∀ s ∈ get_replacement_suggestions data category current_item selected_inventory
        selected_status selected_brands min_days max_days today,
      ∃ r ∈ data, r.category = category ∧ r.name ≠ current_item ∧
        selected_inventory.contains r.inventoryHolding = true ∧
        selected_status.contains r.productStatus = true ∧
        selected_brands.contains r.brand = true ∧
        is_within_expiry r.expiryDate today min_days max_days = true ∧
        s = ⟨r.name, r.mrp, r.availableUnits, r.expiryDate, r.brand⟩) := by
  refine ⟨?_, ?_, ?_, ?_⟩
  · intro s hs
    obtain ⟨r, _, _, hname, _, _, _, _, hmk⟩ :=
      mem_suggestions data category current_item selected_inventory selected_status
        selected_brands min_days max_days today s hs
    rw [hmk]
    exact hname
  · simp only [get_replacement_suggestions, List.length_map]
    exact List.length_take_le 7 _
  · haveI hto : IsTotal Row (fun a b : Row => a.mrp ≤ b.mrp) :=
      ⟨fun a b => le_total a.mrp b.mrp⟩
    haveI htr : IsTrans Row (fun a b : Row => a.mrp ≤ b.mrp) :=
      ⟨fun _ _ _ hab hbc => le_trans hab hbc⟩
    simp only [get_replacement_suggestions]
    apply List.pairwise_map.mpr
    exact (List.sorted_insertionSort _ _).sublist (List.take_sublist 7 _)
  · exact fun s hs => mem_suggestions data category current_item selected_inventory
      selected_status selected_brands min_days max_days today s hs

/-- Rows for the C7 witness scenario: three items in category "c". -/
def wRowP : Row := ⟨"c", "p", 30, 3, 50, "b", "w", "a"⟩

/-- Second C7 witness row, the excluded one. -/
def wRowQ : Row := ⟨"c", "q", 10, 3, 50, "b", "w", "a"⟩

/-- Third C7 witness row. -/
def wRowR : Row := ⟨"c", "r", 20, 3, 50, "b", "w", "a"⟩

/-- Witness for C7: in the three-row scenario the returned suggestion for row
"r" is not the excluded item and the list stays within 7 entries. -/
theorem hamper_C7_witness :
    (⟨"r", 20, 3, 50, "b"⟩ : Suggestion).name ≠ "q" ∧
    (get_replacement_suggestions [wRowP, wRowQ, wRowR] "c" "q"
      ["w"] ["a"] ["b"] 0 100 0).length ≤ 7 :=
  ⟨(hamper_C7 [wRowP, wRowQ, wRowR] "c" "q" ["w"] ["a"] ["b"] 0 100 0).1
      ⟨"r", 20, 3, 50, "b"⟩ (by with_unfolding_all decide),
    (hamper_C7 [wRowP, wRowQ, wRowR] "c" "q" ["w"] ["a"] ["b"] 0 100 0).2.1⟩

/-! ### Claim C9 -/

/-- C9: `create_hamper` and `get_replacement_suggestions` are deterministic —
two calls with an identical inventory snapshot, identical budget and filters,
and an identical today reference return identical results; the embedding has
no other input (no randomness, and the only clock read is the `today`
parameter). -/
theorem hamper_C9 (data data' : List Row) (budget budget' : ℚ)
    (selected_categories selected_categories' selected_inventory selected_inventory'
      selected_status selected_status' selected_brands selected_brands' : List String)
    (min_days min_days' max_days max_days' today today' : ℤ)
    (category category' current_item current_item' : String)
    (h : data = data' ∧ budget = budget' ∧
      selected_categories = selected_categories' ∧
      selected_inventory = selected_inventory' ∧
      selected_status = selected_status' ∧
      selected_brands = selected_brands' ∧
      min_days = min_days' ∧ max_days = max_days' ∧ today = today' ∧
      category = category' ∧ current_item = current_item') :
    create_hamper data budget selected_categories selected_inventory selected_status
        selected_brands min_days max_days today =
      create_hamper data' budget' selected_categories' selected_inventory'
        selected_status' selected_brands' min_days' max_days' today' ∧
    get_replacement_suggestions data category current_item selected_inventory
        selected_status selected_brands min_days max_days today =
      get_replacement_suggestions data' category' current_item' selected_inventory'
        selected_status' selected_brands' min_days' max_days' today' := by
  obtain ⟨h1, h2, h3, h4, h5, h6, h7, h8, h9, h10, h11⟩ := h
  subst h1 h2 h3 h4 h5 h6 h7 h8 h9 h10 h11
  exact ⟨rfl, rfl⟩

/-- Witness for C9 at the concrete one-item scenario. -/
theorem hamper_C9_witness :
    create_hamper [⟨"Snacks", "Choco", 100, 5, 50, "B", "W", "Active"⟩] 250
        ["Snacks"] ["W"] ["Active"] ["B"] 30 365 0 =
      create_hamper [⟨"Snacks", "Choco", 100, 5, 50, "B", "W", "Active"⟩] 250
        ["Snacks"] ["W"] ["Active"] ["B"] 30 365 0 ∧
    get_replacement_suggestions [⟨"Snacks", "Choco", 100, 5, 50, "B", "W", "Active"⟩]
        "Snacks" "Choco" ["W"] ["Active"] ["B"] 30 365 0 =
      get_replacement_suggestions [⟨"Snacks", "Choco", 100, 5, 50, "B", "W", "Active"⟩]
        "Snacks" "Choco" ["W"] ["Active"] ["B"] 30 365 0 :=
  hamper_C9 _ _ _ _ _ _ _ _ _ _ _ _ _ _ _ _ _ _ _ _ _ _
    ⟨rfl, rfl, rfl, rfl, rfl, rfl, rfl, rfl, rfl, rfl, rfl⟩

end Gofig
